import Mathlib

/-!
Shallow embedding of the LLC-size estimation program (Go, `main.go` plus a
second variant of the same orchestrator).  Go `int` values are modelled as
`Int` (the measured sizes stay far below 2^63, so machine overflow never
occurs on any value the program computes); Go's truncating integer division
and remainder are `Int.tdiv` / `Int.tmod`.  Wall-clock measurement is the
one effectful ingredient: it is modelled as an oracle `elapsedNs : Int → Int`
giving, for each candidate buffer size, the elapsed nanoseconds of the access
loop of that sweep.  Everything downstream of the oracle is translated
directly from the source.
-/

/-! ### Byte formatter (`formatBytes`)

Go source:
```
func formatBytes(b int64) string {
    const unit = 1024
    if b < unit { return fmt.Sprintf("%d B", b) }
    div, exp := int64(unit), 0
    for n := b / unit; n >= unit; n /= unit { div *= unit; exp++ }
    return fmt.Sprintf("%.1f %ciB", float64(b)/float64(div), "KMGTPE"[exp])
}
```
In the `b >= 1024` branch every value is a nonnegative int64, so the loop is
modelled on `Nat`.  Go renders `float64(b)/float64(div)` with `%.1f`, which
rounds the quotient to one decimal digit, ties to even; this is modelled by
`roundHalfEven` on the exact quotient (the two agree whenever the quotient is
exactly representable in binary64, in particular on every quotient with
`b < 2^53`). -/

/-- The unit character `"KMGTPE"[exp]` of the Go source.  Go panics on an
out-of-range index; that branch is unreachable for int64 inputs (`exp ≤ 5`),
and the model returns a blank there. -/
def unitChar (e : Nat) : Char := "KMGTPE".toList.getD e ' '

/-- The loop `for n := b / unit; n >= unit; n /= unit { div *= unit; exp++ }`,
returning the final `(div, exp)`. -/
def fbLoop (n div e : Nat) : Nat × Nat :=
  if h : 1024 ≤ n then fbLoop (n / 1024) (div * 1024) (e + 1) else (div, e)
termination_by n
decreasing_by exact Nat.div_lt_self (by omega) (by omega)

/-- `%.1f` applied to the exact quotient `t / (10 * div)` scaled by ten:
the integer nearest to `t / div`, ties to even. -/
def roundHalfEven (t div : Nat) : Nat :=
  if 2 * (t % div) < div then t / div
  else if div < 2 * (t % div) then t / div + 1
  else if t / div % 2 = 0 then t / div else t / div + 1

/-- `formatBytes` of the Go source. -/
def formatBytes (b : Int) : String :=
  if b < 1024 then toString b ++ " B"
  else
    let p := fbLoop (b.toNat / 1024) 1024 0
    let d := roundHalfEven (10 * b.toNat) p.1
    toString (d / 10) ++ "." ++ toString (d % 10) ++ " " ++ (unitChar p.2).toString ++ "iB"

/-! ### Randomized access benchmark internals (`testRange` body)

`main.go` allocates `make([]cacheLine64, size/64)` (64-byte elements); the
second variant allocates `make([]int32, size/4)` (4-byte elements).  Each
iteration accesses `arr[r.Int()%arrLength]`, where `r.Int()` is a nonnegative
pseudo-random Go int. -/

/-- Buffer element count `len(arr)` for the 64-byte-element variant:
`size / 64` with Go integer division. -/
def arrLength64 (size : Int) : Int := size.tdiv 64

/-- Buffer element count `len(arr)` for the 4-byte-element variant:
`size / 4` with Go integer division. -/
def arrLength4 (size : Int) : Int := size.tdiv 4

/-- The accessed index `r.Int() % arrLength` (Go `%` truncates like the
dividend's sign; `r.Int()` is always nonnegative). -/
def accessIndex (r arrLength : Int) : Int := r.tmod arrLength

/-! ### Sweep runner (`testRange`)

For each size, the Go code times the access loop and stores
`Y: float64(int(elapsed.Nanoseconds()) / iterations)` — a Go *integer*
division of the elapsed nanoseconds by the iteration count, then widened to
float64.  The elapsed time is the oracle; the division is kept exactly. -/

/-- The series `xys` built by `testRange`: each candidate size paired with
`int(elapsed.Nanoseconds()) / iterations`. -/
def testRange (elapsedNs : Int → Int) (iterations : Int) (sizes : List Int) :
    List (Int × Int) :=
  sizes.map (fun size => (size, (elapsedNs size).tdiv iterations))

/-! ### Knee detector (`maxSlope`)

Go source:
```
maxSlope := func(xys plotter.XYs) int {
    max := 0.0
    maxPos := 0
    for i := 0; i < len(xys)-1; i++ {
        slope := (xys[i+1].Y - xys[i].Y)
        if slope > max { max = slope; maxPos = i }
    }
    return maxPos
}
```
The loop is the tail recursion `maxSlopeAux` over the remaining suffix, with
`i` the index of the pair currently examined. -/

def maxSlopeAux : List (Int × Int) → Nat → Int → Nat → Nat
  | p0 :: p1 :: rest, i, mx, mp =>
    if mx < p1.2 - p0.2 then maxSlopeAux (p1 :: rest) (i + 1) (p1.2 - p0.2) i
    else maxSlopeAux (p1 :: rest) (i + 1) mx mp
  | _, _, _, mp => mp

/-- `maxSlope` of the Go source: the index of the start of the steepest
strictly positive step of the series (`0` when none exists). -/
def maxSlope (xys : List (Int × Int)) : Nat := maxSlopeAux xys 0 0 0

/-! ### Size sequence generators -/

/-- The Go loop
`sizes := []int{1024}; for sizes[len(sizes)-1] < 64*1024*1024 { append(last*2) }`,
viewed from its running last element.  The `0 < s` conjunct only forces
termination of the model; the single call site starts at `1024 > 0`, where it
never differs from the Go condition. -/
def geomFrom (s : Int) : List Int :=
  if h : 0 < s ∧ s < 67108864 then s :: geomFrom (s * 2) else [s]
termination_by (67108864 - s).toNat
decreasing_by omega

/-- The phase-1 geometric candidate size sequence (1 KiB doubling up to
64 MiB inclusive). -/
def geomSizes : List Int := geomFrom 1024

/-- The phase-2 linear candidate size sequence:
`stepSize := (upper - lower) / 8` (Go integer division) and
`convergedSizes[i] = lower + i*stepSize` for `i = 0..7`. -/
def linearSizes (lower upper : Int) : List Int :=
  (List.range 8).map (fun (i : Nat) => lower + (i : Int) * ((upper - lower).tdiv 8))

/-! ### Orchestrator (`estimate_llc_size`)

Two variants exist in the repository.  `main.go` sweeps with 8,000,000 then
32,000,000 iterations and returns `convergedSizes[maxSlope(xys)]`; the second
variant sweeps with 16,777,216 iterations in both phases and returns
`convergedSizes[maxSlope(xys)+1]`.  The two phases time independently, hence
the two oracles `e1`, `e2`. -/

/-- Phase-1 knee `maxPos := maxSlope(xys)` for sweep oracle `e1` and
iteration count `it1`. -/
def phase1Knee (e1 : Int → Int) (it1 : Int) : Nat :=
  maxSlope (testRange e1 it1 geomSizes)

/-- The lower bracketing size `sizes[maxPos]`. -/
def bracketLower (e1 : Int → Int) (it1 : Int) : Int :=
  geomSizes.getD (phase1Knee e1 it1) 0

/-- The upper bracketing size `sizes[maxPos+1]`. -/
def bracketUpper (e1 : Int → Int) (it1 : Int) : Int :=
  geomSizes.getD (phase1Knee e1 it1 + 1) 0

/-- `stepSize := int(sizeRange / linearSteps)` of the orchestrator. -/
def stepSizeOf (e1 : Int → Int) (it1 : Int) : Int :=
  (bracketUpper e1 it1 - bracketLower e1 it1).tdiv 8

/-- `convergedSizes` of the orchestrator. -/
def phase2Sizes (e1 : Int → Int) (it1 : Int) : List Int :=
  linearSizes (bracketLower e1 it1) (bracketUpper e1 it1)

/-- Phase-2 knee `maxSlope(xys)` on the converged sweep. -/
def phase2Knee (e1 : Int → Int) (it1 : Int) (e2 : Int → Int) (it2 : Int) : Nat :=
  maxSlope (testRange e2 it2 (phase2Sizes e1 it1))

/-- `estimate_llc_size` of `main.go`: returns `convergedSizes[maxSlope(xys)]`. -/
def estimate_llc_size (e1 e2 : Int → Int) : Int :=
  (phase2Sizes e1 8000000).getD (phase2Knee e1 8000000 e2 32000000) 0

/-- `estimate_llc_size` of the second variant: both sweeps use
`1024*1024*16` iterations and the result is `convergedSizes[maxSlope(xys)+1]`. -/
def estimate_llc_size_alt (e1 e2 : Int → Int) : Int :=
  (phase2Sizes e1 16777216).getD (phase2Knee e1 16777216 e2 16777216 + 1) 0

/-! ### Specification helpers (derived, used only to state properties) -/

/-- The latency delta `xys[j+1].Y - xys[j].Y` of consecutive samples. -/
def slopeAt (xys : List (Int × Int)) (j : Nat) : Int :=
  (xys.getD (j + 1) (0, 0)).2 - (xys.getD j (0, 0)).2

/-- The list of consecutive latency deltas of a series. -/
def slopes : List (Int × Int) → List Int
  | p0 :: p1 :: rest => (p1.2 - p0.2) :: slopes (p1 :: rest)
  | _ => []

/-- `maxSlopeAux` re-expressed as a scan of the precomputed delta list. -/
def msDiffs : List Int → Nat → Int → Nat → Nat
  | [], _, _, mp => mp
  | s :: rest, i, mx, mp =>
    if mx < s then msDiffs rest (i + 1) s i else msDiffs rest (i + 1) mx mp

/-- The spec's worked knee-detector example: latencies `[10, 10, 10, 50, 10]`
(the sizes are irrelevant to `maxSlope`). -/
def exampleSeries : List (Int × Int) :=
  [(1024, 10), (2048, 10), (4096, 10), (8192, 50), (16384, 10)]

/-! ### Basic lemmas -/

theorem geomFrom_unfold (s : Int) :
    geomFrom s = if 0 < s ∧ s < 67108864 then s :: geomFrom (s * 2) else [s] := by
  rw [geomFrom]
  simp

theorem geomSizes_eq : geomSizes = [1024, 2048, 4096, 8192, 16384, 32768, 65536,
    131072, 262144, 524288, 1048576, 2097152, 4194304, 8388608, 16777216, 33554432,
    67108864] := by
  unfold geomSizes
  repeat (rw [geomFrom_unfold]; norm_num)

theorem testRange_length (e : Int → Int) (it : Int) (sizes : List Int) :
    (testRange e it sizes).length = sizes.length := by
  simp [testRange]

theorem slopes_length (l : List (Int × Int)) : (slopes l).length = l.length - 1 := by
  induction l with
  | nil => rfl
  | cons p t ih =>
    cases t with
    | nil => rfl
    | cons q r =>
      simp only [slopes, List.length_cons] at ih ⊢
      omega

theorem slopes_getD (l : List (Int × Int)) :
    ∀ j, j + 1 < l.length → (slopes l).getD j 0 = slopeAt l j := by
  induction l with
  | nil => intro j hj; simp at hj
  | cons p t ih =>
    cases t with
    | nil => intro j hj; simp at hj
    | cons q r =>
      intro j hj
      cases j with
      | zero => rfl
      | succ j' =>
        have hj' : j' + 1 < (q :: r).length := by
          simpa [Nat.succ_lt_succ_iff] using hj
        have := ih j' hj'
        simpa [slopes, slopeAt, List.getD_cons_succ] using this

theorem maxSlopeAux_eq_msDiffs (l : List (Int × Int)) :
    ∀ i mx mp, maxSlopeAux l i mx mp = msDiffs (slopes l) i mx mp := by
  induction l with
  | nil => intro i mx mp; rfl
  | cons p t ih =>
    cases t with
    | nil => intro i mx mp; rfl
    | cons q r =>
      intro i mx mp
      simp only [maxSlopeAux, slopes, msDiffs]
      split
      · exact ih ..
      · exact ih ..

theorem msDiffs_default_or_index (d : List Int) :
    ∀ i mx mp, msDiffs d i mx mp = mp ∨
      ∃ j, j < d.length ∧ msDiffs d i mx mp = i + j := by
  induction d with
  | nil => intro i mx mp; exact Or.inl rfl
  | cons s rest ih =>
    intro i mx mp
    simp only [msDiffs]
    split
    · rcases ih (i + 1) s i with h | ⟨j, hj, hje⟩
      · exact Or.inr ⟨0, by simp, by omega⟩
      · exact Or.inr ⟨j + 1, by simp; omega, by omega⟩
    · rcases ih (i + 1) mx mp with h | ⟨j, hj, hje⟩
      · exact Or.inl h
      · exact Or.inr ⟨j + 1, by simp; omega, by omega⟩

theorem msDiffs_of_all_le (d : List Int) :
    ∀ i mx mp, (∀ s ∈ d, s ≤ mx) → msDiffs d i mx mp = mp := by
  induction d with
  | nil => intro i mx mp _; rfl
  | cons s rest ih =>
    intro i mx mp h
    have hs : s ≤ mx := h s (by simp)
    simp only [msDiffs, if_neg (not_lt.mpr hs)]
    exact ih (i + 1) mx mp (fun t ht => h t (by simp [ht]))

theorem msDiffs_argmax (d : List Int) :
    ∀ i mx mp, (∃ s ∈ d, mx < s) →
      ∃ j, j < d.length ∧ msDiffs d i mx mp = i + j ∧ mx < d.getD j 0 ∧
        (∀ j', j' < d.length → d.getD j' 0 ≤ d.getD j 0) ∧
        (∀ j', j' < j → d.getD j' 0 < d.getD j 0) := by
  induction d with
  | nil => intro i mx mp h; simp at h
  | cons s rest ih =>
    intro i mx mp h
    by_cases hcmp : mx < s
    · by_cases hall : ∀ t ∈ rest, t ≤ s
      · refine ⟨0, by simp, ?_, by simpa using hcmp, ?_, by omega⟩
        · simp only [msDiffs, if_pos hcmp]
          rw [msDiffs_of_all_le rest (i + 1) s i hall]
          omega
        · intro j' hj'
          cases j' with
          | zero => simp
          | succ j'' =>
            simp only [List.getD_cons_succ, List.getD_cons_zero]
            have hj'' : j'' < rest.length := by simpa [Nat.succ_lt_succ_iff] using hj'
            have hmem : rest.getD j'' 0 ∈ rest := by
              rw [List.getD_eq_getElem rest 0 hj'']
              exact List.getElem_mem hj''
            exact hall _ hmem
      · push_neg at hall
        obtain ⟨t, ht, hst⟩ := hall
        obtain ⟨j0, hj0len, hj0eq, hj0gt, hj0max, hj0first⟩ := ih (i + 1) s i ⟨t, ht, hst⟩
        refine ⟨j0 + 1, by simpa using hj0len, ?_, ?_, ?_, ?_⟩
        · simp only [msDiffs, if_pos hcmp]
          omega
        · simpa [List.getD_cons_succ] using lt_trans hcmp hj0gt
        · intro j' hj'
          cases j' with
          | zero =>
            simp only [List.getD_cons_zero, List.getD_cons_succ]
            exact le_of_lt hj0gt
          | succ j'' =>
            simp only [List.getD_cons_succ]
            exact hj0max j'' (by simpa [Nat.succ_lt_succ_iff] using hj')
        · intro j' hj'
          cases j' with
          | zero =>
            simp only [List.getD_cons_zero, List.getD_cons_succ]
            exact hj0gt
          | succ j'' =>
            simp only [List.getD_cons_succ]
            exact hj0first j'' (by omega)
    · have hs : s ≤ mx := not_lt.mp hcmp
      have hrest : ∃ t ∈ rest, mx < t := by
        obtain ⟨t, ht, hmt⟩ := h
        rcases List.mem_cons.mp ht with rfl | htr
        · omega
        · exact ⟨t, htr, hmt⟩
      obtain ⟨j0, hj0len, hj0eq, hj0gt, hj0max, hj0first⟩ := ih (i + 1) mx mp hrest
      refine ⟨j0 + 1, by simpa using hj0len, ?_, ?_, ?_, ?_⟩
      · simp only [msDiffs, if_neg hcmp]
        omega
      · simpa [List.getD_cons_succ] using hj0gt
      · intro j' hj'
        cases j' with
        | zero =>
          simp only [List.getD_cons_zero, List.getD_cons_succ]
          exact le_of_lt (lt_of_le_of_lt hs hj0gt)
        | succ j'' =>
          simp only [List.getD_cons_succ]
          exact hj0max j'' (by simpa [Nat.succ_lt_succ_iff] using hj')
      · intro j' hj'
        cases j' with
        | zero =>
          simp only [List.getD_cons_zero, List.getD_cons_succ]
          exact lt_of_le_of_lt hs hj0gt
        | succ j'' =>
          simp only [List.getD_cons_succ]
          exact hj0first j'' (by omega)

theorem maxSlope_eq_msDiffs (xys : List (Int × Int)) :
    maxSlope xys = msDiffs (slopes xys) 0 0 0 :=
  maxSlopeAux_eq_msDiffs xys 0 0 0

theorem maxSlope_add_one_lt (xys : List (Int × Int)) (h2 : 2 ≤ xys.length) :
    maxSlope xys + 1 < xys.length := by
  rw [maxSlope_eq_msDiffs]
  rcases msDiffs_default_or_index (slopes xys) 0 0 0 with h | ⟨j, hj, hje⟩
  · omega
  · have := slopes_length xys
    omega

theorem mem_slopes_exists (xys : List (Int × Int)) (s : Int) (hs : s ∈ slopes xys) :
    ∃ j, j + 1 < xys.length ∧ s = slopeAt xys j := by
  obtain ⟨j, hj, hje⟩ := List.mem_iff_getElem.mp hs
  have hlen := slopes_length xys
  have hjx : j + 1 < xys.length := by omega
  refine ⟨j, hjx, ?_⟩
  rw [← hje, ← slopes_getD xys j hjx, List.getD_eq_getElem _ 0 hj]

theorem maxSlope_of_no_positive (xys : List (Int × Int))
    (h : ∀ j, j + 1 < xys.length → slopeAt xys j ≤ 0) : maxSlope xys = 0 := by
  rw [maxSlope_eq_msDiffs]
  apply msDiffs_of_all_le
  intro s hs
  obtain ⟨j, hj, rfl⟩ := mem_slopes_exists xys s hs
  exact h j hj

theorem maxSlope_argmax (xys : List (Int × Int)) (j : Nat) (hj : j + 1 < xys.length)
    (hpos : 0 < slopeAt xys j) :
    maxSlope xys + 1 < xys.length ∧ 0 < slopeAt xys (maxSlope xys) ∧
      (∀ j', j' + 1 < xys.length → slopeAt xys j' ≤ slopeAt xys (maxSlope xys)) ∧
      (∀ j', j' < maxSlope xys → slopeAt xys j' < slopeAt xys (maxSlope xys)) := by
  have hlen := slopes_length xys
  have hmem : ∃ s ∈ slopes xys, (0 : Int) < s := by
    refine ⟨slopeAt xys j, ?_, hpos⟩
    have hjd : j < (slopes xys).length := by omega
    rw [← slopes_getD xys j hj, List.getD_eq_getElem _ 0 hjd]
    exact List.getElem_mem hjd
  obtain ⟨k, hklen, hkeq, hkgt, hkmax, hkfirst⟩ := msDiffs_argmax (slopes xys) 0 0 0 hmem
  have hms : maxSlope xys = k := by
    rw [maxSlope_eq_msDiffs, hkeq]
    omega
  have hkx : k + 1 < xys.length := by omega
  have hgetk : (slopes xys).getD k 0 = slopeAt xys k := slopes_getD xys k hkx
  refine ⟨by omega, ?_, ?_, ?_⟩
  · rw [hms, ← hgetk]
    exact hkgt
  · intro j' hj'
    have hj'd : j' < (slopes xys).length := by omega
    have := hkmax j' hj'd
    rw [slopes_getD xys j' hj', hgetk] at this
    rw [hms]
    exact this
  · intro j' hj'
    rw [hms] at hj'
    have hj'x : j' + 1 < xys.length := by omega
    have := hkfirst j' hj'
    rw [slopes_getD xys j' hj'x, hgetk] at this
    rw [hms]
    exact this

/-! ### Concrete facts about the generated size sequences -/

theorem geomSizes_length : geomSizes.length = 17 := by
  rw [geomSizes_eq]
  rfl

theorem linearSizes_length (lower upper : Int) : (linearSizes lower upper).length = 8 := by
  simp [linearSizes]

theorem linearSizes_getD (lower upper : Int) (i : Nat) (hi : i < 8) :
    (linearSizes lower upper).getD i 0 = lower + (i : Int) * ((upper - lower).tdiv 8) := by
  rw [linearSizes, List.getD_eq_getElem _ _ (by simpa using hi), List.getElem_map,
    List.getElem_range]

theorem bracket_facts : ∀ k, k < 16 →
    0 < (geomSizes.getD (k + 1) 0 - geomSizes.getD k 0).tdiv 8 ∧
    List.Pairwise (· < ·) (linearSizes (geomSizes.getD k 0) (geomSizes.getD (k + 1) 0)) ∧
    (linearSizes (geomSizes.getD k 0) (geomSizes.getD (k + 1) 0)).getD 7 0 =
      geomSizes.getD k 0 + 7 * ((geomSizes.getD (k + 1) 0 - geomSizes.getD k 0).tdiv 8) ∧
    (linearSizes (geomSizes.getD k 0) (geomSizes.getD (k + 1) 0)).getD 7 0 <
      geomSizes.getD (k + 1) 0 ∧
    ∀ s ∈ linearSizes (geomSizes.getD k 0) (geomSizes.getD (k + 1) 0),
      0 < s ∧ geomSizes.getD k 0 ≤ s ∧
      s ≤ (linearSizes (geomSizes.getD k 0) (geomSizes.getD (k + 1) 0)).getD 7 0 ∧
      s < geomSizes.getD (k + 1) 0 ∧ 1 ≤ arrLength64 s ∧ 1 ≤ arrLength4 s := by
  simp only [geomSizes_eq]
  decide

theorem phase1Knee_add_one_lt (e1 : Int → Int) (it1 : Int) :
    phase1Knee e1 it1 + 1 < geomSizes.length := by
  have h := maxSlope_add_one_lt (testRange e1 it1 geomSizes)
    (by rw [testRange_length, geomSizes_length]; omega)
  rw [testRange_length] at h
  exact h

theorem phase2Sizes_length (e1 : Int → Int) (it1 : Int) :
    (phase2Sizes e1 it1).length = 8 :=
  linearSizes_length _ _

theorem phase2Knee_add_one_lt (e1 : Int → Int) (it1 : Int) (e2 : Int → Int) (it2 : Int) :
    phase2Knee e1 it1 e2 it2 + 1 < 8 := by
  have h := maxSlope_add_one_lt (testRange e2 it2 (phase2Sizes e1 it1))
    (by rw [testRange_length, phase2Sizes_length]; omega)
  rw [testRange_length, phase2Sizes_length] at h
  exact h

theorem phase2Sizes_eq_linear (e1 : Int → Int) (it1 : Int) :
    phase2Sizes e1 it1 = linearSizes (geomSizes.getD (phase1Knee e1 it1) 0)
      (geomSizes.getD (phase1Knee e1 it1 + 1) 0) := rfl

/-! ### Loop bound for the byte formatter -/

theorem fbLoop_exp_le (k : Nat) : ∀ n div e : Nat, n < 1024 ^ (k + 1) →
    (fbLoop n div e).2 ≤ e + k := by
  induction k with
  | zero =>
    intro n div e hn
    rw [fbLoop]
    have h1 : ¬ 1024 ≤ n := by
      norm_num at hn
      omega
    rw [dif_neg h1]
    omega
  | succ k ih =>
    intro n div e hn
    rw [fbLoop]
    split
    · have hdiv : n / 1024 < 1024 ^ (k + 1) := by
        rw [Nat.div_lt_iff_lt_mul (by omega)]
        calc n < 1024 ^ (k + 2) := hn
        _ = 1024 ^ (k + 1) * 1024 := by ring
      have := ih (n / 1024) (div * 1024) (e + 1) hdiv
      omega
    · omega

theorem unitChar_mem (e : Nat) (he : e ≤ 5) :
    unitChar e ∈ ['K', 'M', 'G', 'T', 'P', 'E'] := by
  interval_cases e <;> decide

/-! ### Shared orchestrator facts -/

theorem phase2_all_facts (e1 : Int → Int) (it1 : Int) :
    (phase2Sizes e1 it1).getD 7 0 = bracketLower e1 it1 + 7 * stepSizeOf e1 it1 ∧
    (∀ s ∈ phase2Sizes e1 it1, s ≤ (phase2Sizes e1 it1).getD 7 0) ∧
    (phase2Sizes e1 it1).getD 7 0 < bracketUpper e1 it1 ∧
    ∀ s ∈ phase2Sizes e1 it1, bracketLower e1 it1 ≤ s ∧ s < bracketUpper e1 it1 := by
  have hk := phase1Knee_add_one_lt e1 it1
  rw [geomSizes_length] at hk
  obtain ⟨hstep, hpair, hget7, hlt, hmem⟩ := bracket_facts (phase1Knee e1 it1) (by omega)
  refine ⟨hget7, ?_, hlt, ?_⟩
  · intro s hs
    exact (hmem s hs).2.2.1
  · intro s hs
    exact ⟨(hmem s hs).2.1, (hmem s hs).2.2.2.1⟩

theorem estimate_mem (e1 e2 : Int → Int) :
    estimate_llc_size e1 e2 ∈ phase2Sizes e1 8000000 := by
  have hk : phase2Knee e1 8000000 e2 32000000 < (phase2Sizes e1 8000000).length := by
    rw [phase2Sizes_length]
    have := phase2Knee_add_one_lt e1 8000000 e2 32000000
    omega
  rw [estimate_llc_size, List.getD_eq_getElem _ _ hk]
  exact List.getElem_mem hk

theorem estimate_alt_mem (e1 e2 : Int → Int) :
    estimate_llc_size_alt e1 e2 ∈ phase2Sizes e1 16777216 := by
  have hk : phase2Knee e1 16777216 e2 16777216 + 1 < (phase2Sizes e1 16777216).length := by
    rw [phase2Sizes_length]
    exact phase2Knee_add_one_lt e1 16777216 e2 16777216
  rw [estimate_llc_size_alt, List.getD_eq_getElem _ _ hk]
  exact List.getElem_mem hk

/-! ### Claim theorems -/

/-- Claim C3: the phase-1 geometric candidate sequence has first element exactly
1024, every subsequent element twice its predecessor, is strictly increasing,
and its last element is the first term that reaches or exceeds 64×1024×1024
bytes (the ceiling term is included). -/
theorem geometric_sequence_spec :
    geomSizes.getD 0 0 = 1024 ∧
    (∀ i, i + 1 < geomSizes.length → geomSizes.getD (i + 1) 0 = 2 * geomSizes.getD i 0) ∧
    List.Pairwise (· < ·) geomSizes ∧
    67108864 ≤ geomSizes.getD (geomSizes.length - 1) 0 ∧
    (∀ i, i + 1 < geomSizes.length → geomSizes.getD i 0 < 67108864) := by
  have hdouble : ∀ i, i < 16 → geomSizes.getD (i + 1) 0 = 2 * geomSizes.getD i 0 := by
    simp only [geomSizes_eq]
    decide
  have hbelow : ∀ i, i < 16 → geomSizes.getD i 0 < 67108864 := by
    simp only [geomSizes_eq]
    decide
  refine ⟨by rw [geomSizes_eq]; decide, ?_, by rw [geomSizes_eq]; decide,
    by rw [geomSizes_eq]; decide, ?_⟩
  · intro i hi
    rw [geomSizes_length] at hi
    exact hdouble i (by omega)
  · intro i hi
    rw [geomSizes_length] at hi
    exact hbelow i (by omega)

/-- Witness for C3: doubling holds at the concrete index 0. -/
theorem geometric_sequence_spec_witness :
    0 + 1 < geomSizes.length ∧ geomSizes.getD (0 + 1) 0 = 2 * geomSizes.getD 0 0 :=
  ⟨by rw [geomSizes_length]; omega,
    geometric_sequence_spec.2.1 0 (by rw [geomSizes_length]; omega)⟩

/-- Claim C4: for every lower and upper bound the linear generator produces
exactly 8 sizes, the first equal to `lower` and the `i`-th equal to
`lower + i*step` with `step = (upper-lower)/8` in Go integer division; for
`lower = 1024`, `upper = 2048` it produces `[1024, 1152, ..., 1920]`. -/
theorem linear_generator_spec :
    (∀ lower upper : Int, (linearSizes lower upper).length = 8 ∧
      (linearSizes lower upper).getD 0 0 = lower ∧
      (∀ i, i < 8 → (linearSizes lower upper).getD i 0 =
        lower + (i : Int) * ((upper - lower).tdiv 8))) ∧
    linearSizes 1024 2048 = [1024, 1152, 1280, 1408, 1536, 1664, 1792, 1920] := by
  refine ⟨fun lower upper => ⟨linearSizes_length lower upper, ?_, ?_⟩, by decide⟩
  · have h := linearSizes_getD lower upper 0 (by omega)
    simpa using h
  · exact fun i hi => linearSizes_getD lower upper i hi

/-- Witness for C4: the element formula at the concrete index 3. -/
theorem linear_generator_spec_witness :
    3 < 8 ∧ (linearSizes 1024 2048).getD 3 0 =
      1024 + (3 : Int) * (((2048 : Int) - 1024).tdiv 8) :=
  ⟨by omega, (linear_generator_spec.1 1024 2048).2.2 3 (by omega)⟩

/-- Claim C6: for every series with at least 2 samples the knee index satisfies
`k + 1 < len(series)`, so the orchestrator's phase-1 bracket accesses
`sizes[k₁]` and `sizes[k₁+1]` stay within the geometric sequence and the
out-of-range panic of that indexing is unreachable. -/
theorem knee_index_within_bounds :
    (∀ xys : List (Int × Int), 2 ≤ xys.length → maxSlope xys + 1 < xys.length) ∧
    (∀ e1 : Int → Int, ∀ it1 : Int, phase1Knee e1 it1 + 1 < geomSizes.length) :=
  ⟨maxSlope_add_one_lt, phase1Knee_add_one_lt⟩

/-- Witness for C6: the bound at the concrete 5-sample series. -/
theorem knee_index_within_bounds_witness :
    2 ≤ exampleSeries.length ∧ maxSlope exampleSeries + 1 < exampleSeries.length :=
  ⟨by decide, knee_index_within_bounds.1 exampleSeries (by decide)⟩

/-- Claim C7: every candidate size sequence the orchestrator produces is a
strictly increasing sequence of positive integers; for every phase-1 knee the
phase-2 step size `(sizes[k₁+1] - sizes[k₁]) / 8` is strictly positive. -/
theorem candidate_sequences_strictly_increasing :
    List.Pairwise (· < ·) geomSizes ∧ (∀ s ∈ geomSizes, 0 < s) ∧
    (∀ e1 : Int → Int, ∀ it1 : Int,
      0 < stepSizeOf e1 it1 ∧ List.Pairwise (· < ·) (phase2Sizes e1 it1) ∧
      ∀ s ∈ phase2Sizes e1 it1, 0 < s) := by
  refine ⟨by simp only [geomSizes_eq]; decide, by simp only [geomSizes_eq]; decide, ?_⟩
  intro e1 it1
  have hk := phase1Knee_add_one_lt e1 it1
  rw [geomSizes_length] at hk
  obtain ⟨hstep, hpair, hget7, hlt, hmem⟩ := bracket_facts (phase1Knee e1 it1) (by omega)
  exact ⟨hstep, hpair, fun s hs => (hmem s hs).1⟩

/-- Witness for C7: positivity at the concrete element 1024 of the geometric
sequence. -/
theorem candidate_sequences_strictly_increasing_witness :
    (1024 : Int) ∈ geomSizes ∧ (0 : Int) < 1024 :=
  ⟨by rw [geomSizes_eq]; decide,
    candidate_sequences_strictly_increasing.2.1 1024 (by rw [geomSizes_eq]; decide)⟩

/-- Claim C8: every candidate size of either generator yields a buffer element
count of at least 1 in both variants (64-byte and 4-byte elements), so the
modulo computing the random index never divides by zero, and every index
`r % arrLength` with `r ≥ 0` lies within the buffer bounds. -/
theorem benchmark_index_within_bounds :
    (∀ s ∈ geomSizes, 1 ≤ arrLength64 s ∧ 1 ≤ arrLength4 s) ∧
    (∀ e1 : Int → Int, ∀ it1 : Int, ∀ s ∈ phase2Sizes e1 it1,
      1 ≤ arrLength64 s ∧ 1 ≤ arrLength4 s) ∧
    (∀ r n : Int, 0 ≤ r → 0 < n → 0 ≤ accessIndex r n ∧ accessIndex r n < n) := by
  refine ⟨by simp only [geomSizes_eq]; decide, ?_, ?_⟩
  · intro e1 it1 s hs
    have hk := phase1Knee_add_one_lt e1 it1
    rw [geomSizes_length] at hk
    obtain ⟨_, _, _, _, hmem⟩ := bracket_facts (phase1Knee e1 it1) (by omega)
    exact ⟨(hmem s hs).2.2.2.2.1, (hmem s hs).2.2.2.2.2⟩
  · intro r n hr hn
    exact ⟨Int.tmod_nonneg n hr, Int.tmod_lt_of_pos r hn⟩

/-- Witness for C8: the modulo bound at the concrete pair `r = 5`, `n = 7`. -/
theorem benchmark_index_within_bounds_witness :
    (0 : Int) ≤ 5 ∧ (0 : Int) < 7 ∧ 0 ≤ accessIndex 5 7 ∧ accessIndex 5 7 < 7 :=
  ⟨by decide, by decide, benchmark_index_within_bounds.2.2 5 7 (by decide) (by decide)⟩

/-- Claim C1: the final estimate of the `main.go` orchestrator is the phase-2
candidate at index `k₂` (the phase-2 knee), and the final estimate of the
second variant is the phase-2 candidate at index `k₂ + 1`; both indices are in
range, so both estimates are elements of the phase-2 sequence. -/
theorem final_estimate_indexed_at_phase2_knee :
    ∀ e1 e2 : Int → Int,
      (phase2Sizes e1 8000000)[phase2Knee e1 8000000 e2 32000000]? =
        some (estimate_llc_size e1 e2) ∧
      estimate_llc_size e1 e2 ∈ phase2Sizes e1 8000000 ∧
      (phase2Sizes e1 16777216)[phase2Knee e1 16777216 e2 16777216 + 1]? =
        some (estimate_llc_size_alt e1 e2) ∧
      estimate_llc_size_alt e1 e2 ∈ phase2Sizes e1 16777216 := by
  intro e1 e2
  have hk1 : phase2Knee e1 8000000 e2 32000000 < (phase2Sizes e1 8000000).length := by
    rw [phase2Sizes_length]
    have := phase2Knee_add_one_lt e1 8000000 e2 32000000
    omega
  have hk2 : phase2Knee e1 16777216 e2 16777216 + 1 < (phase2Sizes e1 16777216).length := by
    rw [phase2Sizes_length]
    exact phase2Knee_add_one_lt e1 16777216 e2 16777216
  refine ⟨?_, estimate_mem e1 e2, ?_, estimate_alt_mem e1 e2⟩
  · rw [List.getElem?_eq_getElem hk1, estimate_llc_size, List.getD_eq_getElem _ _ hk1]
  · rw [List.getElem?_eq_getElem hk2, estimate_llc_size_alt, List.getD_eq_getElem _ _ hk2]

/-- Claim C2: on every series with at least 2 samples, `maxSlope` returns the
lowest index of the largest strictly positive consecutive latency difference,
and 0 when no strictly positive difference exists; on latencies
`[10, 10, 10, 50, 10]` it returns 2. -/
theorem maxSlope_finds_steepest_positive_step :
    (∀ xys : List (Int × Int), 2 ≤ xys.length →
      ((∀ j, j + 1 < xys.length → slopeAt xys j ≤ 0) → maxSlope xys = 0) ∧
      (∀ j, j + 1 < xys.length → 0 < slopeAt xys j →
        maxSlope xys + 1 < xys.length ∧ 0 < slopeAt xys (maxSlope xys) ∧
        (∀ j', j' + 1 < xys.length → slopeAt xys j' ≤ slopeAt xys (maxSlope xys)) ∧
        (∀ j', j' < maxSlope xys → slopeAt xys j' < slopeAt xys (maxSlope xys)))) ∧
    maxSlope exampleSeries = 2 := by
  refine ⟨fun xys h2 => ⟨maxSlope_of_no_positive xys,
    fun j hj hpos => maxSlope_argmax xys j hj hpos⟩, by decide⟩

/-- Witness for C2: the characterization applied to the worked example at its
positive step `j = 2`. -/
theorem maxSlope_finds_steepest_positive_step_witness :
    2 ≤ exampleSeries.length ∧ 2 + 1 < exampleSeries.length ∧
    0 < slopeAt exampleSeries 2 ∧
    maxSlope exampleSeries + 1 < exampleSeries.length ∧
    0 < slopeAt exampleSeries (maxSlope exampleSeries) :=
  ⟨by decide, by decide, by decide,
    ((maxSlope_finds_steepest_positive_step.1 exampleSeries (by decide)).2 2
      (by decide) (by decide)).1,
    ((maxSlope_finds_steepest_positive_step.1 exampleSeries (by decide)).2 2
      (by decide) (by decide)).2.1⟩

/-- Claim C10: in both orchestrator variants the largest phase-2 candidate is
`sizes[k₁] + 7*step`, which is strictly below the upper bracketing size
`sizes[k₁+1]`, so the upper bracket is never measured in phase 2 and the final
estimate lies in `[sizes[k₁], sizes[k₁+1])`. -/
theorem phase2_bracket_containment :
    ∀ e1 e2 : Int → Int,
      ((phase2Sizes e1 8000000).getD 7 0 =
          bracketLower e1 8000000 + 7 * stepSizeOf e1 8000000 ∧
        (∀ s ∈ phase2Sizes e1 8000000, s ≤ (phase2Sizes e1 8000000).getD 7 0) ∧
        (phase2Sizes e1 8000000).getD 7 0 < bracketUpper e1 8000000 ∧
        bracketLower e1 8000000 ≤ estimate_llc_size e1 e2 ∧
        estimate_llc_size e1 e2 < bracketUpper e1 8000000) ∧
      ((phase2Sizes e1 16777216).getD 7 0 =
          bracketLower e1 16777216 + 7 * stepSizeOf e1 16777216 ∧
        (∀ s ∈ phase2Sizes e1 16777216, s ≤ (phase2Sizes e1 16777216).getD 7 0) ∧
        (phase2Sizes e1 16777216).getD 7 0 < bracketUpper e1 16777216 ∧
        bracketLower e1 16777216 ≤ estimate_llc_size_alt e1 e2 ∧
        estimate_llc_size_alt e1 e2 < bracketUpper e1 16777216) := by
  intro e1 e2
  obtain ⟨h7a, hmaxa, hlta, hbnda⟩ := phase2_all_facts e1 8000000
  obtain ⟨h7b, hmaxb, hltb, hbndb⟩ := phase2_all_facts e1 16777216
  have hma := hbnda _ (estimate_mem e1 e2)
  have hmb := hbndb _ (estimate_alt_mem e1 e2)
  exact ⟨⟨h7a, hmaxa, hlta, hma.1, hma.2⟩, ⟨h7b, hmaxb, hltb, hmb.1, hmb.2⟩⟩

/-- Witness for C10: the membership-based bound instantiated at a concrete
element of the phase-2 sequence of constant oracles. -/
theorem phase2_bracket_containment_witness :
    bracketLower (fun _ => 0) 8000000 ≤ estimate_llc_size (fun _ => 0) (fun _ => 0) ∧
    estimate_llc_size (fun _ => 0) (fun _ => 0) < bracketUpper (fun _ => 0) 8000000 :=
  ⟨(phase2_bracket_containment (fun _ => 0) (fun _ => 0)).1.2.2.2.1,
    (phase2_bracket_containment (fun _ => 0) (fun _ => 0)).1.2.2.2.2⟩

/-- Claim C9: `formatBytes` returns the bare integer with unit "B" for every
input below 1024, and a one-decimal-place value with a binary unit prefix
(KiB, MiB, GiB, TiB, PiB or EiB) for every int64 input ≥ 1024; the spec's five
concrete values all hold. -/
theorem formatBytes_iec_spec :
    (∀ b : Int, b < 1024 → formatBytes b = toString b ++ " B") ∧
    (∀ b : Int, 1024 ≤ b → b < 9223372036854775808 →
      ∃ d : Nat, ∃ c : Char, c ∈ ['K', 'M', 'G', 'T', 'P', 'E'] ∧ d % 10 < 10 ∧
        formatBytes b = toString (d / 10) ++ "." ++ toString (d % 10) ++ " " ++
          c.toString ++ "iB") ∧
    formatBytes 0 = "0 B" ∧ formatBytes 1023 = "1023 B" ∧
    formatBytes 1024 = "1.0 KiB" ∧ formatBytes 1536 = "1.5 KiB" ∧
    formatBytes (1024 * 1024) = "1.0 MiB" := by
  refine ⟨?_, ?_, by decide, by decide, ?_, ?_, ?_⟩
  · intro b hb
    simp only [formatBytes, if_pos hb]
  · intro b hb hb63
    have hnot : ¬ b < 1024 := not_lt.mpr hb
    have hexp : (fbLoop (b.toNat / 1024) 1024 0).2 ≤ 5 := by
      have hp : (1024 : Nat) ^ (5 + 1) = 1152921504606846976 := by norm_num
      have hlt : b.toNat / 1024 < 1024 ^ (5 + 1) := by
        rw [hp]
        omega
      simpa using fbLoop_exp_le 5 (b.toNat / 1024) 1024 0 hlt
    refine ⟨roundHalfEven (10 * b.toNat) (fbLoop (b.toNat / 1024) 1024 0).1,
      unitChar (fbLoop (b.toNat / 1024) 1024 0).2, unitChar_mem _ hexp,
      Nat.mod_lt _ (by omega), ?_⟩
    simp only [formatBytes, if_neg hnot]
  · simp only [formatBytes]
    rw [fbLoop]
    decide
  · simp only [formatBytes]
    rw [fbLoop]
    decide
  · simp only [formatBytes]
    rw [fbLoop, fbLoop]
    decide

/-- Witness for C9: the below-1024 branch at the concrete input 5. -/
theorem formatBytes_iec_spec_witness :
    (5 : Int) < 1024 ∧ formatBytes 5 = toString (5 : Int) ++ " B" :=
  ⟨by decide, formatBytes_iec_spec.1 5 (by decide)⟩

/-- Counterexample to claim C5: with elapsed = 10 ns and iterations = 8000000,
the stored latency is 0, which is not the exact quotient 10 / 8000000 — the
code stores the Go integer division `int(elapsed.Nanoseconds()) / iterations`,
not an exact division. -/
theorem testRange_average_not_exact_division :
    ((testRange (fun _ => 10) 8000000 [1024]).getD 0 (0, 0)).2 = 0 ∧
    ¬ (((((testRange (fun _ => 10) 8000000 [1024]).getD 0 (0, 0)).2 : Int) : ℚ) =
        (10 : ℚ) / 8000000) := by
  refine ⟨by decide, ?_⟩
  have h0 : ((testRange (fun _ => 10) 8000000 [1024]).getD 0 (0, 0)).2 = 0 := by decide
  rw [h0]
  norm_num

/-- Claim C5 (amended): the latency stored for the `j`-th measured size is the
*truncated* integer quotient of the elapsed nanoseconds by the iteration
count (Go `/` on int); for nonnegative elapsed time and positive iterations it
is the floor of the exact average, off by strictly less than one iteration's
worth. -/
theorem testRange_average_is_truncated_division (e : Int → Int) (it : Int)
    (sizes : List Int) (j : Nat) (hj : j < sizes.length)
    (hr : 0 ≤ e (sizes.getD j 0)) (hit : 0 < it) :
    ((testRange e it sizes).getD j (0, 0)).2 = (e (sizes.getD j 0)).tdiv it ∧
    ((testRange e it sizes).getD j (0, 0)).2 * it ≤ e (sizes.getD j 0) ∧
    e (sizes.getD j 0) < (((testRange e it sizes).getD j (0, 0)).2 + 1) * it := by
  have hjt : j < (testRange e it sizes).length := by
    rw [testRange_length]
    exact hj
  have heq : ((testRange e it sizes).getD j (0, 0)).2 = (e (sizes.getD j 0)).tdiv it := by
    rw [List.getD_eq_getElem _ _ hjt, List.getD_eq_getElem _ _ hj]
    simp [testRange]
  refine ⟨heq, ?_, ?_⟩
  · rw [heq, Int.tdiv_eq_ediv hr (le_of_lt hit)]
    nlinarith [Int.emod_add_ediv (e (sizes.getD j 0)) it,
      Int.emod_nonneg (e (sizes.getD j 0)) (by omega : it ≠ 0)]
  · rw [heq, Int.tdiv_eq_ediv hr (le_of_lt hit)]
    nlinarith [Int.emod_add_ediv (e (sizes.getD j 0)) it,
      Int.emod_lt_of_pos (e (sizes.getD j 0)) hit]

/-- Witness for C5 (amended): the floor bounds at elapsed = 10 ns,
iterations = 8000000, sizes = [1024], index 0. -/
theorem testRange_average_is_truncated_division_witness :
    0 < [(1024 : Int)].length ∧ 0 ≤ (10 : Int) ∧ 0 < (8000000 : Int) ∧
    (((testRange (fun _ => 10) 8000000 [1024]).getD 0 (0, 0)).2 =
        (10 : Int).tdiv 8000000 ∧
      ((testRange (fun _ => 10) 8000000 [1024]).getD 0 (0, 0)).2 * 8000000 ≤ 10 ∧
      (10 : Int) < (((testRange (fun _ => 10) 8000000 [1024]).getD 0 (0, 0)).2 + 1) *
        8000000) :=
  ⟨by decide, by decide, by decide,
    testRange_average_is_truncated_division (fun _ => 10) 8000000 [1024] 0
      (by decide) (by decide) (by decide)⟩
